import Mathlib

/-!
Verification development for the agentic-code-search repository.

The development shallowly embeds the two algorithmic subsystems of the
repository:

* the streaming response assembler, content classifier, artifact extractor
  and message renderer of the CodeSearch UI revision found in
  src/unnamed/part_005 (functions handleSearch, extractArtifacts,
  parseAgentContent, formatMessageContent), together with the JavaScript
  primitives they rely on (JSON.parse, JSON.stringify, the regular
  expression scans, String.prototype.trim/includes/startsWith/replace);

* the local session/message store of src/unnamed/part_007
  (updateMessageInSession, deleteSession);

* the vector similarity search pipeline of the MCP tool
  vector_search_code.  Its implementation is not part of the source tree
  (src/unnamed/part_000 is the tool documentation only), so that pipeline
  is modelled from the specification.

JavaScript objects are modelled by an inductive JSON value type, the
ambient clock Date.now() is an explicit natural-number parameter, and all
functions are structurally recursive so that closed instances reduce by
rfl and decide.
-/

/-! ### Characters and JavaScript string primitives -/

/-- The left brace character, U+007B. -/
def lbraceC : Char := Char.ofNat 123

/-- The right brace character, U+007D. -/
def rbraceC : Char := Char.ofNat 125

/-- The backtick character, U+0060. -/
def btickC : Char := Char.ofNat 96

/-- ASCII whitespace recognised by the JavaScript class backslash-s and by
String.prototype.trim: space, tab, newline, carriage return, vertical tab
and form feed. -/
def isJsWs (c : Char) : Bool :=
  c == ' ' || c == '\t' || c == '\n' || c == '\r' || c == Char.ofNat 11 || c == Char.ofNat 12

/-- Whitespace accepted between tokens by JSON.parse: space, tab, newline,
carriage return. -/
def isJsonWs (c : Char) : Bool :=
  c == ' ' || c == '\t' || c == '\n' || c == '\r'

/-- String.prototype.trim on a character list. -/
def jsTrimL (cs : List Char) : List Char :=
  ((cs.dropWhile isJsWs).reverse.dropWhile isJsWs).reverse

/-- String.prototype.trim. -/
def jsTrim (s : String) : String :=
  String.mk (jsTrimL s.data)

/-- Substring test on character lists (needle, haystack). -/
def infixOfL (needle : List Char) : List Char → Bool
  | [] => needle.isEmpty
  | c :: cs => needle.isPrefixOf (c :: cs) || infixOfL needle cs

/-- String.prototype.includes. -/
def jsIncludes (s sub : String) : Bool :=
  infixOfL sub.data s.data

/-- String.prototype.startsWith. -/
def jsStartsWith (s p : String) : Bool :=
  p.data.isPrefixOf s.data

/-- String.prototype.replace with a plain-string pattern: replace the first
occurrence only. -/
def replaceFirstL (pat repl : List Char) : List Char → List Char
  | [] => []
  | c :: cs =>
    if pat.isPrefixOf (c :: cs) then repl ++ (c :: cs).drop pat.length
    else c :: replaceFirstL pat repl cs

/-- String.prototype.replace for a first-occurrence plain-string pattern. -/
def jsReplaceFirst (s pat repl : String) : String :=
  String.mk (replaceFirstL pat.data repl.data s.data)

/-- String.prototype.replace with a global literal pattern: replace every
non-overlapping occurrence, scanning left to right and continuing after
each replacement.  The first argument is recursion fuel, at least the
length of the scanned list. -/
def replaceAllL (pat repl : List Char) : Nat → List Char → List Char
  | _, [] => []
  | 0, cs => cs
  | Nat.succ f, c :: cs =>
    if !pat.isEmpty && pat.isPrefixOf (c :: cs) then
      repl ++ replaceAllL pat repl f ((c :: cs).drop pat.length)
    else c :: replaceAllL pat repl f cs

/-- String.prototype.replace with a global literal pattern. -/
def jsReplaceAll (s pat repl : String) : String :=
  String.mk (replaceAllL pat.data repl.data (s.data.length + 1) s.data)

/-- Index of the last occurrence of a character in a list. -/
def lastIdxOf (t : Char) (l : List Char) : Option Nat :=
  match l.reverse.findIdx? (fun c => c == t) with
  | some k => some (l.length - 1 - k)
  | none => none

/-- Split a character list at the first occurrence of a separator
character, returning the pieces before and after it. -/
def splitAtFirst (t : Char) : List Char → Option (List Char × List Char)
  | [] => none
  | c :: cs =>
    if c == t then some ([], cs)
    else
      match splitAtFirst t cs with
      | some (b, a) => some (c :: b, a)
      | none => none

/-- Split a character list at every occurrence of a separator character,
keeping empty pieces, like String.prototype.split with a one-character
separator.  The first argument is recursion fuel. -/
def splitOnCharL (t : Char) : Nat → List Char → List (List Char)
  | 0, cs => [cs]
  | Nat.succ f, cs =>
    match splitAtFirst t cs with
    | some (before, after) => before :: splitOnCharL t f after
    | none => [cs]

/-! ### JSON values -/

/-- JSON values as produced by JSON.parse.  Numbers are modelled exactly by
rationals; object fields keep document order. -/
inductive Json where
  | null
  | bool (b : Bool)
  | num (q : Rat)
  | str (s : String)
  | arr (elems : List Json)
  | obj (fields : List (String × Json))

/-- Property access on a parsed JSON value.  Mirrors JavaScript: only
objects expose fields, and a duplicated key resolves to its last
occurrence, as JSON.parse keeps the last duplicate. -/
def getField (j : Json) (k : String) : Option Json :=
  match j with
  | Json.obj kvs =>
    match kvs.reverse.find? (fun kv => kv.1 == k) with
    | some kv => some kv.2
    | none => none
  | _ => none

/-- JavaScript truthiness of a parsed JSON value. -/
def jsTruthy : Json → Bool
  | Json.null => false
  | Json.bool b => b
  | Json.num q => !(q == 0)
  | Json.str s => !(s == "")
  | Json.arr _ => true
  | Json.obj _ => true

/-- Whether typeof yields "object" for the value (arrays and null
included, as in JavaScript). -/
def jsIsObjType : Json → Bool
  | Json.null => true
  | Json.arr _ => true
  | Json.obj _ => true
  | _ => false

/-- The guard `parsed && typeof parsed === "object"` used throughout the
source. -/
def jsObjTruthy (j : Json) : Bool :=
  jsTruthy j && jsIsObjType j

/-- The check `parsed.status === s` for a string literal s. -/
def statusIs (j : Json) (s : String) : Bool :=
  match getField j "status" with
  | some (Json.str t) => t == s
  | _ => false

/-- Truthiness of a field access, `parsed.k` used as a condition. -/
def truthyField (j : Json) (k : String) : Bool :=
  match getField j k with
  | some v => jsTruthy v
  | none => false

/-- Whether the object carries the field at all (present even if falsy). -/
def hasField (j : Json) (k : String) : Bool :=
  (getField j k).isSome

/-! ### JSON.parse -/

/-- Parser mode: a value, the tail of an array after its first element, or
the fields of a brace-delimited object. -/
inductive PM where
  | value
  | arrTail (acc : List Json)
  | objKey (acc : List (String × Json))

/-- Value of a hexadecimal digit. -/
def hexVal (c : Char) : Option Nat :=
  if c.isDigit then some (c.toNat - 48)
  else if 'a' ≤ c && c ≤ 'f' then some (c.toNat - 87)
  else if 'A' ≤ c && c ≤ 'F' then some (c.toNat - 70)
  else none

/-- Parse the body of a JSON string literal (after the opening quote),
handling the escape sequences of the JSON grammar.  Returns the decoded
string and the remaining input.  The first argument is recursion fuel. -/
def parseStrBody : Nat → List Char → List Char → Option (String × List Char)
  | 0, _, _ => none
  | Nat.succ f, acc, cs =>
    match cs with
    | [] => none
    | c :: rest =>
      if c == '"' then some (String.mk acc.reverse, rest)
      else if c == '\\' then
        match rest with
        | [] => none
        | e :: rest2 =>
          if e == '"' || e == '\\' || e == '/' then parseStrBody f (e :: acc) rest2
          else if e == 'b' then parseStrBody f (Char.ofNat 8 :: acc) rest2
          else if e == 'f' then parseStrBody f (Char.ofNat 12 :: acc) rest2
          else if e == 'n' then parseStrBody f ('\n' :: acc) rest2
          else if e == 'r' then parseStrBody f ('\r' :: acc) rest2
          else if e == 't' then parseStrBody f ('\t' :: acc) rest2
          else if e == 'u' then
            match rest2 with
            | h1 :: h2 :: h3 :: h4 :: rest3 =>
              match hexVal h1, hexVal h2, hexVal h3, hexVal h4 with
              | some v1, some v2, some v3, some v4 =>
                parseStrBody f (Char.ofNat (((v1 * 16 + v2) * 16 + v3) * 16 + v4) :: acc) rest3
              | _, _, _, _ => none
            | _ => none
          else none
      else if c.toNat < 32 then none
      else parseStrBody f (c :: acc) rest

/-- Consume a run of decimal digits, returning its value, its length and
the rest of the input. -/
def parseDigits : List Char → Nat → Nat → Nat × Nat × List Char
  | [], v, n => (v, n, [])
  | c :: cs, v, n =>
    if c.isDigit then parseDigits cs (v * 10 + (c.toNat - 48)) (n + 1)
    else (v, n, c :: cs)

/-- Parse the optional sign and digits of a number exponent. -/
def numExp (cs : List Char) : Option Int × List Char :=
  let (esign, cs1) :=
    match cs with
    | '-' :: rest => ((-1 : Int), rest)
    | '+' :: rest => ((1 : Int), rest)
    | _ => ((1 : Int), cs)
  match parseDigits cs1 0 0 with
  | (_, 0, _) => (none, cs1)
  | (ev, Nat.succ _, cs2) => (some (esign * (ev : Int)), cs2)

/-- Parse a JSON number (integer part, optional fraction, optional
exponent) into an exact rational, rejecting an integer part with a
leading zero as JSON.parse does. -/
def parseNum (cs : List Char) : Option (Json × List Char) :=
  let (neg, cs1) :=
    match cs with
    | '-' :: rest => (true, rest)
    | _ => (false, cs)
  let leadOk :=
    match cs1 with
    | '0' :: c2 :: _ => !c2.isDigit
    | _ => true
  if !leadOk then none else
  match parseDigits cs1 0 0 with
  | (_, 0, _) => none
  | (ip, Nat.succ _, cs2) =>
    let (frac, fd, cs3) :=
      match cs2 with
      | '.' :: rest =>
        match parseDigits rest 0 0 with
        | (_, 0, _) => (0, 0, '.' :: rest)
        | (fv, Nat.succ m, r) => (fv, Nat.succ m, r)
      | _ => (0, 0, cs2)
    let (eseg, cs4) :=
      match cs3 with
      | 'e' :: rest => numExp rest
      | 'E' :: rest => numExp rest
      | _ => (some (0 : Int), cs3)
    match eseg with
    | none => none
    | some ex =>
      let base : Rat := (ip : Rat) + mkRat frac (10 ^ fd)
      let scaled : Rat :=
        if 0 ≤ ex then base * ((10 : Rat) ^ ex.toNat)
        else base / ((10 : Rat) ^ (-ex).toNat)
      let q := if neg then -scaled else scaled
      some (Json.num q, cs4)


/-- The recursive descent behind JSON.parse.  Fuel-indexed so that the
function is structurally recursive; jsonParse supplies ample fuel. -/
def pJ : Nat → PM → List Char → Option (Json × List Char)
  | 0, _, _ => none
  | Nat.succ f, PM.value, cs0 =>
    match cs0.dropWhile isJsonWs with
    | [] => none
    | c :: rest =>
      if c == lbraceC then
        match rest.dropWhile isJsonWs with
        | [] => none
        | c2 :: rest2 =>
          if c2 == rbraceC then some (Json.obj [], rest2)
          else pJ f (PM.objKey []) (c2 :: rest2)
      else if c == '[' then
        match rest.dropWhile isJsonWs with
        | [] => none
        | c2 :: rest2 =>
          if c2 == ']' then some (Json.arr [], rest2)
          else
            match pJ f PM.value (c2 :: rest2) with
            | some (v, r) => pJ f (PM.arrTail [v]) r
            | none => none
      else if c == '"' then
        match parseStrBody (rest.length + 1) [] rest with
        | some (s, r) => some (Json.str s, r)
        | none => none
      else if c == 't' then
        if ['r', 'u', 'e'].isPrefixOf rest then some (Json.bool true, rest.drop 3) else none
      else if c == 'f' then
        if ['a', 'l', 's', 'e'].isPrefixOf rest then some (Json.bool false, rest.drop 4) else none
      else if c == 'n' then
        if ['u', 'l', 'l'].isPrefixOf rest then some (Json.null, rest.drop 3) else none
      else if c == '-' || c.isDigit then parseNum (c :: rest)
      else none
  | Nat.succ f, PM.arrTail acc, cs0 =>
    match cs0.dropWhile isJsonWs with
    | [] => none
    | c :: rest =>
      if c == ']' then some (Json.arr acc.reverse, rest)
      else if c == ',' then
        match pJ f PM.value rest with
        | some (v, r) => pJ f (PM.arrTail (v :: acc)) r
        | none => none
      else none
  | Nat.succ f, PM.objKey acc, cs0 =>
    match cs0.dropWhile isJsonWs with
    | [] => none
    | c :: rest =>
      if c == '"' then
        match parseStrBody (rest.length + 1) [] rest with
        | some (k, r) =>
          match r.dropWhile isJsonWs with
          | [] => none
          | c2 :: r2 =>
            if c2 == ':' then
              match pJ f PM.value r2 with
              | some (v, r3) =>
                match r3.dropWhile isJsonWs with
                | [] => none
                | c3 :: r4 =>
                  if c3 == rbraceC then some (Json.obj ((k, v) :: acc).reverse, r4)
                  else if c3 == ',' then pJ f (PM.objKey ((k, v) :: acc)) r4
                  else none
              | none => none
            else none
        | none => none
      else none

/-- JSON.parse: parse the whole string, tolerating surrounding JSON
whitespace and failing on any other trailing input.  Returns none exactly
when JSON.parse would throw. -/
def jsonParse (s : String) : Option Json :=
  match pJ (4 * s.data.length + 8) PM.value s.data with
  | some (j, rest) => if (rest.dropWhile isJsonWs).isEmpty then some j else none
  | none => none

/-! ### JavaScript string coercion and JSON.stringify -/

/-- JavaScript String() coercion of a parsed JSON value, fuel-indexed for
the array case (String(array) joins the coerced elements with commas;
plain objects coerce to "[object Object]").  Rationals that are integers
print as integers; non-integral rationals print as num/den, a harmless
approximation of JavaScript float formatting never exercised by the
sources below. -/
def jsToStrF : Nat → Json → String
  | _, Json.str s => s
  | _, Json.null => "null"
  | _, Json.bool b => if b then "true" else "false"
  | _, Json.num q => if q.den == 1 then toString q.num else toString q.num ++ "/" ++ toString q.den
  | _, Json.obj _ => "[object Object]"
  | 0, Json.arr _ => ""
  | Nat.succ f, Json.arr xs => String.intercalate "," (xs.map (jsToStrF f))

/-- JavaScript String() coercion. -/
def jsToStr (j : Json) : String :=
  jsToStrF 99 j

/-- Lower-case hexadecimal digit. -/
def hexDigit (n : Nat) : Char :=
  if n < 10 then Char.ofNat (48 + n) else Char.ofNat (87 + n)

/-- Escape one character for a JSON string literal. -/
def jsonEscChar (c : Char) : List Char :=
  if c == '"' then ['\\', '"']
  else if c == '\\' then ['\\', '\\']
  else if c == '\n' then ['\\', 'n']
  else if c == '\r' then ['\\', 'r']
  else if c == '\t' then ['\\', 't']
  else if c == Char.ofNat 8 then ['\\', 'b']
  else if c == Char.ofNat 12 then ['\\', 'f']
  else if c.toNat < 32 then
    ['\\', 'u', '0', '0', hexDigit (c.toNat / 16), hexDigit (c.toNat % 16)]
  else [c]

/-- JSON.stringify of a string value. -/
def jsonQuote (s : String) : String :=
  String.mk ('"' :: (s.data.map jsonEscChar).flatten ++ ['"'])

/-- Compact JSON.stringify, fuel-indexed for nested values. -/
def jsonStringifyF : Nat → Json → String
  | _, Json.null => "null"
  | _, Json.bool b => if b then "true" else "false"
  | _, Json.num q => if q.den == 1 then toString q.num else toString q.num ++ "/" ++ toString q.den
  | _, Json.str s => jsonQuote s
  | 0, Json.arr _ => ""
  | 0, Json.obj _ => ""
  | Nat.succ f, Json.arr xs =>
    "[" ++ String.intercalate "," (xs.map (jsonStringifyF f)) ++ "]"
  | Nat.succ f, Json.obj kvs =>
    String.mk lbraceC.toString.data ++
      String.intercalate "," (kvs.map (fun kv => jsonQuote kv.1 ++ ":" ++ jsonStringifyF f kv.2)) ++
      String.mk rbraceC.toString.data

/-- Compact JSON.stringify. -/
def jsonStringify (j : Json) : String :=
  jsonStringifyF 99 j

/-- Indentation of n spaces. -/
def spacesN (n : Nat) : String :=
  String.mk (List.replicate n ' ')

/-- JSON.stringify with a two-space indent, as in
JSON.stringify(value, null, 2); fuel-indexed for nested values. -/
def jsonStringifyPrettyF : Nat → Nat → Json → String
  | _, _, Json.null => "null"
  | _, _, Json.bool b => if b then "true" else "false"
  | _, _, Json.num q => if q.den == 1 then toString q.num else toString q.num ++ "/" ++ toString q.den
  | _, _, Json.str s => jsonQuote s
  | 0, _, Json.arr _ => ""
  | 0, _, Json.obj _ => ""
  | Nat.succ f, ind, Json.arr xs =>
    if xs.isEmpty then "[]"
    else
      "[\n" ++
        String.intercalate ",\n" (xs.map (fun x => spacesN (ind + 2) ++ jsonStringifyPrettyF f (ind + 2) x)) ++
        "\n" ++ spacesN ind ++ "]"
  | Nat.succ f, ind, Json.obj kvs =>
    if kvs.isEmpty then lbraceC.toString ++ rbraceC.toString
    else
      lbraceC.toString ++ "\n" ++
        String.intercalate ",\n"
          (kvs.map (fun kv =>
            spacesN (ind + 2) ++ jsonQuote kv.1 ++ ": " ++ jsonStringifyPrettyF f (ind + 2) kv.2)) ++
        "\n" ++ spacesN ind ++ rbraceC.toString

/-- JSON.stringify(value, null, 2). -/
def jsonStringifyPretty (j : Json) : String :=
  jsonStringifyPrettyF 99 0 j

/-! ### Regular expression scans used by the source -/

/-- Find the first occurrence of a pattern in a list, returning the text
before it and the text after it.  The first argument is recursion fuel. -/
def findSub (pat : List Char) : Nat → List Char → Option (List Char × List Char)
  | 0, _ => none
  | Nat.succ f, cs =>
    match cs with
    | [] => if pat.isEmpty then some ([], []) else none
    | c :: rest =>
      if pat.isPrefixOf (c :: rest) then some ([], (c :: rest).drop pat.length)
      else
        match findSub pat f rest with
        | some (b, a) => some (c :: b, a)
        | none => none

/-- All matches of the global non-greedy brace regex (an opening brace,
a shortest run of any characters, a closing brace): repeatedly take the
first opening brace and the nearest closing brace after it, then continue
after the match.  The first argument is recursion fuel. -/
def braceMatchesL : Nat → List Char → List (List Char)
  | 0, _ => []
  | Nat.succ f, cs =>
    match cs with
    | [] => []
    | c :: rest =>
      if c == lbraceC then
        match splitAtFirst rbraceC rest with
        | some (before, after) => (lbraceC :: before ++ [rbraceC]) :: braceMatchesL f after
        | none => []
      else braceMatchesL f rest

/-- Matches of the inline JSON regex over a string. -/
def braceMatches (s : String) : List String :=
  (braceMatchesL (s.data.length + 1) s.data).map String.mk

/-- The triple backtick fence delimiter. -/
def ticks : List Char := [btickC, btickC, btickC]

/-- All matches of the global non-greedy fenced-code-block regex: a fence,
a shortest run of any characters, a fence; scanning continues after each
match.  The first argument is recursion fuel. -/
def fenceMatchesL : Nat → List Char → List (List Char)
  | 0, _ => []
  | Nat.succ f, cs =>
    match findSub ticks (cs.length + 1) cs with
    | some (_, rest1) =>
      match findSub ticks (rest1.length + 1) rest1 with
      | some (mid, rest2) => (ticks ++ mid ++ ticks) :: fenceMatchesL f rest2
      | none => []
    | none => []

/-- Matches of the fenced-code-block regex over a string. -/
def fenceMatches (s : String) : List String :=
  (fenceMatchesL (s.data.length + 1) s.data).map String.mk

/-- String.prototype.split on the capturing fenced-code-block regex:
alternating unmatched text and fence matches, keeping empty pieces, as
JavaScript split with a capture group does.  The first argument is
recursion fuel. -/
def splitFencesL : Nat → List Char → List (List Char)
  | 0, cs => [cs]
  | Nat.succ f, cs =>
    match findSub ticks (cs.length + 1) cs with
    | some (pre1, rest1) =>
      match findSub ticks (rest1.length + 1) rest1 with
      | some (mid, rest2) => pre1 :: (ticks ++ mid ++ ticks) :: splitFencesL f rest2
      | none => [cs]
    | none => [cs]

/-- String.prototype.split on the capturing fenced-code-block regex. -/
def splitFences (s : String) : List String :=
  (splitFencesL (s.data.length + 1) s.data).map String.mk

/-- The substring `content.slice(3, -3)` that strips a fence match down to
its inner text. -/
def sliceInner (s : String) : String :=
  String.mk (((s.data.drop 3).reverse.drop 3).reverse)

/-! ### The file path regex -/

/-- First-segment characters of the file path regex (letters, digits,
underscore, hyphen). -/
def isSeg1C (c : Char) : Bool :=
  c.isAlphanum || c == '_' || c == '-'

/-- Middle characters of the file path regex (letters, digits, underscore,
slash, dot, comma, hyphen). -/
def isMidC (c : Char) : Bool :=
  c.isAlphanum || c == '_' || c == '/' || c == '.' || c == ',' || c == '-'

/-- Alphanumeric extension characters of the file path regex. -/
def isExtC (c : Char) : Bool :=
  c.isAlphanum

/-- Whether a maximal run of middle-class characters is matched by the
path token shape: a nonempty first segment, a slash, a nonempty middle and
a dot followed by a nonempty alphanumeric extension reaching the end of
the run.  Because every character of the run is in the middle class, a
match can only end at the end of the run, so the dot must be the last dot
of the run. -/
def tokenPathOk (run : List Char) : Bool :=
  let seg1 := run.takeWhile isSeg1C
  let rest := run.drop seg1.length
  match rest with
  | [] => false
  | c :: mid =>
    if seg1.isEmpty then false
    else if !(c == '/') then false
    else
      match lastIdxOf '.' mid with
      | some d =>
        decide (1 ≤ d) && (let ext := mid.drop (d + 1); !ext.isEmpty && ext.all isExtC)
      | none => false

/-- Attempt a path-token match at the current position (the word boundary
has already been honoured): the token is the maximal middle-class run,
it must be well-shaped, and it must be followed by whitespace or the end
of input.  On success, returns the captured token, the rest of the input
after the match (the one trailing whitespace character is consumed when
present, as the regex alternation prefers it over the end anchor) and
whether the consumed trailing character was a newline. -/
def tryPathToken (cs : List Char) : Option (List Char × List Char × Bool) :=
  let run := cs.takeWhile isMidC
  if run.isEmpty then none
  else if !tokenPathOk run then none
  else
    match cs.drop run.length with
    | [] => some (run, [], false)
    | w :: rest => if isJsWs w then some (run, rest, w == '\n') else none

/-- The scan of the global multiline file path regex.  The boolean tracks
whether the current position is at a line start (the start anchor of the
multiline flag); at each position the regex first tries the empty line
anchor and then a consumed whitespace boundary, exactly as the alternation
in the source pattern.  The first argument is recursion fuel. -/
def filePathsL : Nat → Bool → List Char → List (List Char)
  | 0, _, _ => []
  | Nat.succ f, atStart, cs =>
    match cs with
    | [] => []
    | c :: rest =>
      match (if atStart then tryPathToken (c :: rest) else none) with
      | some (tok, after, nl) => tok :: filePathsL f nl after
      | none =>
        match (if isJsWs c then tryPathToken rest else none) with
        | some (tok, after, nl) => tok :: filePathsL f nl after
        | none => filePathsL f (c == '\n') rest

/-- All captured path tokens of the file path regex over a string. -/
def filePathMatches (s : String) : List String :=
  (filePathsL (s.data.length + 1) true s.data).map String.mk

/-! ### Content classifier: parseAgentContent (src/unnamed/part_005, lines 579-604) -/

/-- Result of the content classifier. -/
inductive Parsed where
  | inputRequired (j : Json)
  | artifact (j : Json)
  | message (s : String)

/-- parseAgentContent: attempt JSON.parse on the whole content; a truthy
object whose status is input_required with a truthy question classifies as
an input_required prompt, any other truthy object as an artifact, and
anything else (parse failure included, which the source swallows in a
try/catch) as a plain message carrying the raw text. -/
def parseAgentContent (content : String) : Parsed :=
  match jsonParse content with
  | some parsed =>
    if jsObjTruthy parsed then
      if statusIs parsed "input_required" && truthyField parsed "question" then
        Parsed.inputRequired parsed
      else Parsed.artifact parsed
    else Parsed.message content
  | none => Parsed.message content

/-! ### Artifact extractor: extractArtifacts (src/unnamed/part_005, lines 461-577) -/

/-- Payload of an artifact: a parsed JSON value, raw text, or a captured
file list. -/
inductive ArtContent where
  | js (j : Json)
  | text (s : String)
  | files (fs : List String)

/-- A derived artifact. -/
structure Artifact where
  id : String
  type : String
  content : ArtContent

/-- The slice of stream metadata consulted by the extractor and carried in
lastMetadata by the assembler. -/
structure MetaD where
  response_type : String
  is_task_complete : Bool
  require_user_input : Bool
  errors : Option (List String)
  processing_messages : List String
  raw_data : Option Json

/-- The guard `metadata?.raw_data && typeof metadata.raw_data === "object"`. -/
def rawDataOf (metadata : Option MetaD) : Option Json :=
  match metadata with
  | some md =>
    match md.raw_data with
    | some j => if jsObjTruthy j then some j else none
    | none => none
  | none => none

/-- The fenced code block artifacts: every fence match is kept, with its
enumeration index in the id, except blocks whose inner slice (after
trimming) parses as a truthy object with status input_required. -/
def codeArts (content : String) : List Artifact :=
  (fenceMatches content).enum.filterMap (fun bi =>
    let inner := jsTrim (sliceInner bi.2)
    match jsonParse inner with
    | some p =>
      if jsObjTruthy p && statusIs p "input_required" then none
      else some (Artifact.mk ("artifact_code_" ++ Nat.repr bi.1) "code" (ArtContent.text bi.2))
    | none => some (Artifact.mk ("artifact_code_" ++ Nat.repr bi.1) "code" (ArtContent.text bi.2)))

/-- The inline JSON artifacts: every brace match that parses as a truthy
object whose status is not input_required. -/
def inlineJsonArts (content : String) : List Artifact :=
  (braceMatches content).enum.filterMap (fun mi =>
    match jsonParse mi.2 with
    | some p =>
      if jsObjTruthy p && !statusIs p "input_required" then
        some (Artifact.mk ("artifact_json_inline_" ++ Nat.repr mi.1) "json" (ArtContent.js p))
      else none
    | none => none)

/-- The file list artifact, emitted only when more than three path tokens
match; its id embeds Date.now(). -/
def fileArts (content : String) (now : Nat) : List Artifact :=
  let filePaths := filePathMatches content
  if 3 < filePaths.length then
    [Artifact.mk ("artifact_files_" ++ Nat.repr now) "file_list" (ArtContent.files filePaths)]
  else []

/-- The rules applied when neither the raw structured object nor the
whole-content parse produced (or suppressed) an artifact. -/
def restArtifacts (content : String) (now : Nat) : List Artifact :=
  codeArts content ++ inlineJsonArts content ++ fileArts content now

/-- extractArtifacts.  The now argument is the ambient Date.now() reading
used in generated ids.  In source order: a truthy raw_data object from the
metadata short-circuits to a repository_analysis or generic json artifact;
otherwise a whole-content JSON object yields one json artifact unless its
status is input_required (then nothing); otherwise fenced code blocks,
inline JSON matches and the file list rule each contribute.  The source
also contains a loop over brace matches before the whole-content parse
whose body only continues, a no-op not modelled. -/
def extractArtifacts (content : String) (metadata : Option MetaD) (now : Nat) : List Artifact :=
  match rawDataOf metadata with
  | some rawData =>
    match getField rawData "repository_analysis" with
    | some ra =>
      if jsObjTruthy ra then
        [Artifact.mk ("artifact_repo_analysis_" ++ Nat.repr now) "repository_analysis"
          (ArtContent.js ra)]
      else [Artifact.mk ("artifact_json_" ++ Nat.repr now) "json" (ArtContent.js rawData)]
    | none => [Artifact.mk ("artifact_json_" ++ Nat.repr now) "json" (ArtContent.js rawData)]
  | none =>
    match jsonParse (jsTrim content) with
    | some parsed =>
      if jsObjTruthy parsed then
        if statusIs parsed "input_required" then []
        else [Artifact.mk ("artifact_json_" ++ Nat.repr now) "json" (ArtContent.js parsed)]
      else restArtifacts content now
    | none => restArtifacts content now

/-! ### Message state -/

/-- Message status. -/
inductive MStatus where
  | sending
  | streaming
  | complete
  | error
deriving DecidableEq

/-- The metadata object attached to a message: the spread of the
assembler's lastMetadata plus the keys added at publication time.  Fields
are optional because the source builds these objects by spreading partial
records. -/
structure MsgMeta where
  response_type : Option String
  is_task_complete : Option Bool
  require_user_input : Option Bool
  errors : Option (List String)
  processing_messages : Option (List String)
  raw_data : Option Json
  artifacts : Option (List Artifact)
  parsed_content : Option Parsed

/-- Spread a lastMetadata record into a message metadata object. -/
def mdSpread (m : Option MetaD) : MsgMeta :=
  match m with
  | none => MsgMeta.mk none none none none none none none none
  | some d =>
    MsgMeta.mk (some d.response_type) (some d.is_task_complete) (some d.require_user_input)
      d.errors (some d.processing_messages) d.raw_data none none

/-- A chat message as held in the session store and rendered by the UI. -/
structure Msg where
  content : String
  status : MStatus
  metadata : Option MsgMeta

/-! ### Message renderer: formatMessageContent (src/unnamed/part_005, lines 803-980) -/

/-- The rendered body of a message, abstracting the produced React tree:
the processing view, the input_required plain-text view, the two pure and
metadata-driven question views, the structured-data view, the text plus
artifact list view, and the plain fallback split on fences. -/
inductive Body where
  | processing (msgs : List String)
  | irText (t : String)
  | pureQuestion (q : String)
  | metaQuestion (q : String)
  | metaArtifact (j : Json)
  | contentWithArtifacts (text : String) (arts : List Artifact)
  | plainParts (parts : List String)

/-- A rendered message: the warning list shown when the stream collected
errors, and the main body. -/
structure FormatResult where
  errorsShown : List String
  body : Body

/-- The detection loop of formatMessageContent: the first brace match that
parses as a truthy object with status input_required and a truthy
question, together with that question value. -/
def firstIRMatch (content : String) : Option (String × Json) :=
  (braceMatches content).findSome? (fun m =>
    match jsonParse m with
    | some p =>
      if jsObjTruthy p && statusIs p "input_required" && truthyField p "question" then
        match getField p "question" with
        | some qv => some (m, qv)
        | none => none
      else none
    | none => none)

/-- The removal loop of formatMessageContent: for every brace match that
parses as a truthy object with status input_required (no question
required here), replace its first occurrence by the empty string and trim. -/
def removeIRMatches (content : String) : String :=
  (braceMatches content).foldl (fun acc m =>
    match jsonParse m with
    | some p =>
      if jsObjTruthy p && statusIs p "input_required" then jsTrim (jsReplaceFirst acc m "")
      else acc
    | none => acc) content

/-- The global multiline replacement of lines consisting of optional
whitespace around the word json by the empty line. -/
def stripJsonLines (cs : List Char) : List Char :=
  let lines := splitOnCharL '\n' (cs.length + 1) cs
  List.intercalate ['\n']
    (lines.map (fun l => if String.mk (jsTrimL l) == "json" then ([] : List Char) else l))

/-- The global replacement of a newline, optional whitespace and a newline
by a single newline: at each newline opening a whitespace run containing a
second newline, the match extends to the last newline of the run and is
replaced by one newline, scanning resuming after it.  The first argument
is recursion fuel. -/
def collapseNl : Nat → List Char → List Char
  | 0, cs => cs
  | _, [] => []
  | Nat.succ f, c :: cs =>
    if c == '\n' then
      let run := (c :: cs).takeWhile isJsWs
      if 2 ≤ run.count '\n' then
        match lastIdxOf '\n' run with
        | some k => '\n' :: collapseNl f ((c :: cs).drop (k + 1))
        | none => c :: collapseNl f cs
      else c :: collapseNl f cs
    else c :: collapseNl f cs

/-- The cleanup chain applied to the residual text: drop literal fence
openers with a json tag, drop remaining fences, blank out lines that are
exactly the word json, collapse blank-line runs, trim. -/
def cleanupIRText (s : String) : String :=
  let t1 := jsReplaceAll s (String.mk (ticks ++ ['j', 's', 'o', 'n'])) ""
  let t2 := jsReplaceAll t1 (String.mk ticks) ""
  let t3 := String.mk (stripJsonLines t2.data)
  let t4 := String.mk (collapseNl (t3.data.length + 1) t3.data)
  jsTrim t4


/-- The default rendering: with artifacts present, the text stripped of
fences next to the artifact list, and otherwise the raw split on fences. -/
def formatDefault (message : Msg) (errs : List String) : FormatResult :=
  let artifacts :=
    match message.metadata with
    | some md => md.artifacts.getD []
    | none => []
  if !artifacts.isEmpty then
    let parts := splitFences message.content
    let textParts := parts.filter (fun part => !jsStartsWith part (String.mk ticks))
    let textContent := jsTrim (String.join textParts)
    FormatResult.mk errs (Body.contentWithArtifacts textContent artifacts)
  else FormatResult.mk errs (Body.plainParts (splitFences message.content))

/-- The branch of formatMessageContent taken when neither input_required
path fired: metadata parsed_content views, the artifact list view, or the
plain fallback split on fences. -/
def formatRest (message : Msg) (errs : List String) : FormatResult :=
  match message.metadata with
  | some md =>
    match md.parsed_content with
    | some (Parsed.inputRequired j) =>
      FormatResult.mk errs (Body.metaQuestion
        (match getField j "question" with
        | some v => jsToStr v
        | none => ""))
    | some (Parsed.artifact j) => FormatResult.mk errs (Body.metaArtifact j)
    | _ => formatDefault message errs
  | none => formatDefault message errs

/-- formatMessageContent: the processing view for a streaming message with
processing messages and blank content; otherwise the embedded
input_required detection, the pure input_required parse, the metadata
parsed_content branches, the artifact view and the fallback, in source
order.  The rendered error warnings accompany every non-processing view. -/
def formatMessageContent (message : Msg) : FormatResult :=
  let content := message.content
  let processing :=
    match message.metadata with
    | some md => md.processing_messages
    | none => none
  let isProcessing :=
    message.status == MStatus.streaming &&
      (match processing with
      | some l => !l.isEmpty
      | none => false)
  if isProcessing && jsTrim content == "" then
    FormatResult.mk [] (Body.processing (processing.getD []))
  else
    let errs :=
      match message.metadata with
      | some md => md.errors.getD []
      | none => []
    match firstIRMatch content with
    | some mq =>
      let questionText := jsToStr mq.2
      let textContent := cleanupIRText (removeIRMatches content)
      if jsIncludes textContent questionText then FormatResult.mk errs (Body.irText textContent)
      else
        let finalText :=
          if !(textContent == "") && jsTruthy mq.2 then
            textContent ++ "\n\n" ++ questionText
          else if jsTruthy mq.2 then questionText
          else textContent
        FormatResult.mk errs (Body.irText finalText)
    | none =>
      match jsonParse (jsTrim content) with
      | some parsed =>
        if jsObjTruthy parsed && statusIs parsed "input_required" && truthyField parsed "question" then
          FormatResult.mk errs (Body.pureQuestion
            (match getField parsed "question" with
            | some v => jsToStr v
            | none => ""))
        else formatRest message errs
      | none => formatRest message errs

/-- The classification and display pipeline for a completed agent message
whose accumulated content is the given string: the message carries the
parsed_content and artifacts recomputed from that content, as the final
update of handleSearch produces them, and is rendered by
formatMessageContent. -/
def displayPipeline (content : String) (now : Nat) : FormatResult :=
  formatMessageContent
    (Msg.mk content MStatus.complete
      (some (MsgMeta.mk none none none none none none
        (some (extractArtifacts content none now))
        (some (parseAgentContent content)))))

/-! ### Stream assembler: handleSearch (src/unnamed/part_005, lines 284-459) -/

/-- Content of a stream frame: a string or a structured object. -/
inductive ContentV where
  | str (s : String)
  | obj (j : Json)

/-- A protocol frame as consumed by the assembler loop. -/
structure Frame where
  response_type : Option String
  is_task_complete : Bool
  require_user_input : Bool
  content : Option ContentV
  error : Option Json
  type : Option String
  response : Option String

/-- JavaScript `a || b` for an optional string against a default. -/
def jsOrStr (o : Option String) (d : String) : String :=
  match o with
  | some s => if s == "" then d else s
  | none => d

/-- Truthiness of the frame content field. -/
def contentTruthy (f : Frame) : Bool :=
  match f.content with
  | some (ContentV.str s) => !(s == "")
  | some (ContentV.obj _) => true
  | none => false

/-- The frame content as the JSON value stored into raw_data. -/
def contentJson : ContentV → Json
  | ContentV.str s => Json.str s
  | ContentV.obj j => j

/-- The error message collected from a frame error value:
`error?.error?.message || error?.message || JSON.stringify(error)`, with
non-string truthy message values coerced by String(). -/
def errMsgOf (e : Json) : String :=
  let m1 :=
    match getField e "error" with
    | some je =>
      match getField je "message" with
      | some v => if jsTruthy v then some (jsToStr v) else none
      | none => none
    | none => none
  match m1 with
  | some m => m
  | none =>
    match getField e "message" with
    | some v => if jsTruthy v then jsToStr v else jsonStringify e
    | none => jsonStringify e

/-- The processing/status heuristic of the assembler. -/
def isProcessingMessage (content : String) : Bool :=
  jsIncludes content "Processing" ||
  jsIncludes content "thinking" ||
  jsIncludes content "analyzing" ||
  jsIncludes content "searching" ||
  jsStartsWith content (String.mk (ticks ++ ['j', 's', 'o', 'n'])) ||
  (jsIncludes content lbraceC.toString && jsIncludes content rbraceC.toString &&
    jsIncludes content "tasks")

/-- The local accumulator state of the handleSearch loop, together with
the currently published agent message and a crash marker for the
TypeError raised when a non-terminal frame carries object content (the
source then calls string methods on an object; the exception is caught by
the surrounding try). -/
structure StreamState where
  fullContent : String
  lastMetadata : Option MetaD
  collectedErrors : List String
  processingMessages : List String
  message : Msg
  crashed : Bool

/-- The message text of the TypeError raised when the processing
heuristic is applied to object content. -/
def crashMsg : String := "content.includes is not a function"

/-- `collectedErrors.length > 0 ? collectedErrors : undefined`. -/
def optErrs (errs : List String) : Option (List String) :=
  if errs.isEmpty then none else some errs

/-- The per-frame publication block shared by all non-continue branches:
store the new accumulator fields and publish the message with the
recomputed artifacts and parsed content; the published status is complete
exactly when the frame carries a terminal marker. -/
def publishCommon (now : Nat) (f : Frame) (fc : String) (lm : Option MetaD)
    (errs pm : List String) : StreamState :=
  StreamState.mk fc lm errs pm
    (Msg.mk fc
      (if f.is_task_complete || f.type == some "final_result" then MStatus.complete
       else MStatus.streaming)
      (some
        (let base := mdSpread lm
         MsgMeta.mk base.response_type base.is_task_complete base.require_user_input base.errors
           base.processing_messages base.raw_data
           (some (extractArtifacts fc lm now)) (some (parseAgentContent fc)))))
    false

/-- One iteration of the for-await loop of handleSearch.  The error
branch collects only a truthy error value, as the source guards it with
a truthiness test on chunk.error: a present but falsy error appends
nothing. -/
def stepFrame (now : Nat) (s : StreamState) (f : Frame) : StreamState :=
  if s.crashed then s
  else
    let errs :=
      match f.error with
      | some e => if jsTruthy e then s.collectedErrors ++ [errMsgOf e] else s.collectedErrors
      | none => s.collectedErrors
    if f.type == some "final_result" then
      let fc := jsOrStr f.response ""
      let md := MetaD.mk (jsOrStr f.response_type "data") true false (optErrs errs)
        s.processingMessages none
      publishCommon now f fc (some md) errs s.processingMessages
    else if f.is_task_complete && contentTruthy f then
      match f.content with
      | some cv =>
        let fc :=
          match cv with
          | ContentV.obj j =>
            if truthyField j "summary" then jsToStr ((getField j "summary").getD Json.null)
            else jsonStringifyPretty j
          | ContentV.str cs => cs
        let md := MetaD.mk (jsOrStr f.response_type "data") true false (optErrs errs)
          s.processingMessages (some (contentJson cv))
        publishCommon now f fc (some md) errs s.processingMessages
      | none => s
    else if contentTruthy f && !f.is_task_complete then
      match f.content with
      | some (ContentV.obj _) =>
        StreamState.mk s.fullContent s.lastMetadata errs s.processingMessages s.message true
      | some (ContentV.str c) =>
        if isProcessingMessage c then
          let pm := s.processingMessages ++ [c]
          let md := MetaD.mk (jsOrStr f.response_type "text") false f.require_user_input
            (optErrs errs) pm none
          StreamState.mk s.fullContent (some md) errs pm
            (Msg.mk (String.intercalate "\n" pm) MStatus.streaming (some (mdSpread (some md))))
            false
        else
          let md := MetaD.mk (jsOrStr f.response_type "text") f.is_task_complete
            f.require_user_input (optErrs errs) s.processingMessages none
          publishCommon now f c (some md) errs s.processingMessages
      | none => s
    else
      publishCommon now f s.fullContent s.lastMetadata errs s.processingMessages

/-- The agent message placeholder created before streaming starts. -/
def initMsg : Msg :=
  Msg.mk "" MStatus.streaming
    (some (MsgMeta.mk none none none none none none (some []) none))

/-- The accumulator state before the first frame. -/
def initState : StreamState :=
  StreamState.mk "" none [] [] initMsg false

/-- The accumulator state after consuming a frame list in order. -/
def runState (now : Nat) (frames : List Frame) : StreamState :=
  frames.foldl (stepFrame now) initState

/-- The metadata written by the final post-loop update. -/
def finalMeta (s : StreamState) (now : Nat) : MsgMeta :=
  let base := mdSpread s.lastMetadata
  MsgMeta.mk base.response_type base.is_task_complete base.require_user_input
    (optErrs s.collectedErrors) base.processing_messages base.raw_data
    (some (extractArtifacts s.fullContent s.lastMetadata now))
    (some (parseAgentContent s.fullContent))

/-- The final agent message: after a crash the catch block merges an error
string and error status into the last published message; otherwise the
final update publishes the accumulated content as complete. -/
def runStream (now : Nat) (frames : List Frame) : Msg :=
  let s := runState now frames
  if s.crashed then
    Msg.mk ("Error: " ++ crashMsg) MStatus.error s.message.metadata
  else Msg.mk s.fullContent MStatus.complete (some (finalMeta s now))

/-- The processing_messages list of a message metadata, when present. -/
def msgProcessing (m : Msg) : Option (List String) :=
  match m.metadata with
  | some md => md.processing_messages
  | none => none

/-! ### Session and message store (src/unnamed/part_007, lines 170-284) -/

/-- A stored chat message. -/
structure StoreMsg where
  id : String
  type : String
  content : String
  timestamp : Nat
  status : MStatus
  metadata : Option Json

/-- A stored session with its owned message list. -/
structure PSession where
  id : String
  name : String
  github_url : Option String
  agent_type : String
  created_at : Nat
  last_used : Nat
  messages : List StoreMsg

/-- The persisted store: the session list and the active session id. -/
structure SessionsStorageData where
  sessions : List PSession
  activeSessionId : Option String

/-- A partial message update, one optional field per message key, merged
by object spread. -/
structure MsgUpd where
  id : Option String
  type : Option String
  content : Option String
  timestamp : Option Nat
  status : Option MStatus
  metadata : Option Json

/-- The object spread merge of a message with a partial update. -/
def applyUpd (m : StoreMsg) (u : MsgUpd) : StoreMsg :=
  StoreMsg.mk (u.id.getD m.id) (u.type.getD m.type) (u.content.getD m.content)
    (u.timestamp.getD m.timestamp) (u.status.getD m.status)
    (match u.metadata with
    | some v => some v
    | none => m.metadata)

/-- updateMessageInSession: locate the first session with the given id and
within it the first message with the given id, replace that message by its
merge with the updates and save; if either lookup fails nothing is saved
and the store is unchanged. -/
def updateMessageInSession (d : SessionsStorageData) (sessionId messageId : String)
    (updates : MsgUpd) : SessionsStorageData :=
  match d.sessions.findIdx? (fun s => s.id == sessionId) with
  | none => d
  | some i =>
    match d.sessions[i]? with
    | none => d
    | some sess =>
      match sess.messages.findIdx? (fun m => m.id == messageId) with
      | none => d
      | some j =>
        match sess.messages[j]? with
        | none => d
        | some m =>
          SessionsStorageData.mk
            (d.sessions.set i
              (PSession.mk sess.id sess.name sess.github_url sess.agent_type sess.created_at
                sess.last_used (sess.messages.set j (applyUpd m updates))))
            d.activeSessionId

/-- deleteSession: drop every session with the given id; if the active
session id pointed at it, re-point it at the first remaining session, or
clear it when none remain. -/
def deleteSession (d : SessionsStorageData) (sessionId : String) : SessionsStorageData :=
  let sessions2 := d.sessions.filter (fun s => !(s.id == sessionId))
  SessionsStorageData.mk sessions2
    (if d.activeSessionId == some sessionId then
      match sessions2 with
      | [] => none
      | s :: _ => some s.id
    else d.activeSessionId)

/-! ### Vector similarity search -/

/-- Modelled from the spec: the vector_search_code MCP tool is documented
in src/unnamed/part_000 but its implementation is not part of the source
tree; the pipeline below follows section 4.4 of the specification.  A
stored chunk embedding row. -/
structure ChunkEmbedding where
  id : String
  session_id : String
  file_path : String
  chunk_index : Nat
  chunk_size : Nat
  content : String
  vector : List ℝ
  created_at : Nat

/-- Modelled from the spec: the dot product of two vectors. -/
def dotR (a b : List ℝ) : ℝ :=
  (List.zipWith (fun x y => x * y) a b).sum

/-- Modelled from the spec: cosine similarity `dot(a,b)/(|a|*|b|)`, with
real arithmetic as the idealisation of the double precision the spec
prescribes. -/
noncomputable def cosineSim (a b : List ℝ) : ℝ :=
  dotR a b / (Real.sqrt (dotR a a) * Real.sqrt (dotR b b))

/-- Modelled from the spec: the ranking order of the result list, sorted
descending by similarity to the query with ties broken by ascending
created_at. -/
def searchRel (q : List ℝ) (a b : ChunkEmbedding) : Prop :=
  cosineSim q b.vector < cosineSim q a.vector ∨
    (cosineSim q a.vector = cosineSim q b.vector ∧ a.created_at ≤ b.created_at)

noncomputable instance searchRelDec (q : List ℝ) : DecidableRel (searchRel q) := fun _ _ =>
  instDecidableOr

/-- Modelled from the spec: vector_search_code computes the similarity of
the query vector against every stored chunk, restricted to the session
when one is given, keeps rows at or above the threshold, sorts descending
by similarity with ties broken by ascending created_at, and truncates to
the limit. -/
noncomputable def vector_search_code (q : List ℝ) (session_id : Option String)
    (similarity_threshold : ℝ) (limit : Nat) (db : List ChunkEmbedding) :
    List ChunkEmbedding :=
  let pool :=
    match session_id with
    | none => db
    | some sid => db.filter (fun c => c.session_id == sid)
  let kept := pool.filter (fun c => decide (similarity_threshold ≤ cosineSim q c.vector))
  (List.insertionSort (searchRel q) kept).take limit


/-- Modelled from the spec: the candidate pool, restricted to the session
when one is given. -/
def poolOf (session_id : Option String) (db : List ChunkEmbedding) : List ChunkEmbedding :=
  match session_id with
  | none => db
  | some sid => db.filter (fun c => c.session_id == sid)

/-! ### Concrete fixtures used by witnesses and counterexamples -/

/-- The projection of an artifact onto its clock-independent fields. -/
def stripId (a : Artifact) : String × ArtContent :=
  (a.type, a.content)

/-- The canonical input_required JSON text. -/
def irS : String :=
  "\x7b\"status\":\"input_required\",\"question\":\"Which branch?\"\x7d"

/-- The value JSON.parse gives for irS. -/
def irJ : Json :=
  Json.obj [("status", Json.str "input_required"), ("question", Json.str "Which branch?")]

/-- An input_required object whose question field is present but empty. -/
def irEmptyQS : String :=
  "\x7b\"status\":\"input_required\",\"question\":\"\"\x7d"

/-- The value JSON.parse gives for irEmptyQS. -/
def irEmptyQJ : Json :=
  Json.obj [("status", Json.str "input_required"), ("question", Json.str "")]

/-- An input_required prompt inside a json-tagged fence. -/
def fencedIR : String :=
  String.mk (ticks ++ ['j', 's', 'o', 'n', '\n']) ++ irS ++ String.mk ('\n' :: ticks)

/-- A metadata record carrying a raw structured object, as branch three of
the assembler stores it. -/
def mdRaw : MetaD :=
  MetaD.mk "data" true false none [] (some (Json.obj []))

/-- The input_required fragment embedded in prose. -/
def flatEmb : String :=
  "Please clarify " ++ irS ++ " thanks"

/-- An input_required object containing a nested object, which the
non-greedy brace scan cannot match. -/
def nestedFrag : String :=
  "\x7b\"status\":\"input_required\",\"question\":\"Q\",\"x\":\x7b\x7d\x7d"

/-- The nested input_required fragment embedded in prose. -/
def nestedEmb : String :=
  "pre " ++ nestedFrag ++ " post"

/-- A processing frame. -/
def frProcessing : Frame :=
  Frame.mk none false false (some (ContentV.str "Processing repo...")) none none none

/-- The terminal content frame of the specified two-frame exchange. -/
def frDone : Frame :=
  Frame.mk none true false (some (ContentV.str "def foo(): pass")) none none none

/-- A frame carrying only an error value. -/
def frErrOnly : Frame :=
  Frame.mk none false false none (some (Json.str "boom")) none none

/-- A frame carrying a present but falsy error value. -/
def frErrFalsy : Frame :=
  Frame.mk none false false none (some (Json.str "")) none none

/-- A final_result frame with response A. -/
def frFinalA : Frame :=
  Frame.mk none false false none none (some "final_result") (some "A")

/-- A plain, non-terminal content frame arriving after the terminal one. -/
def frLateB : Frame :=
  Frame.mk none false false (some (ContentV.str "B")) none none none

/-- A store message fixture. -/
def msgFix (i : String) : StoreMsg :=
  StoreMsg.mk i "agent" "hello" 0 MStatus.complete none

/-- A session fixture holding two messages. -/
def sessFix (i : String) : PSession :=
  PSession.mk i ("name " ++ i) none "orchestrator" 0 0 [msgFix "m1", msgFix "m2"]

/-- A store fixture holding two sessions. -/
def storeFix : SessionsStorageData :=
  SessionsStorageData.mk [sessFix "s1", sessFix "s2"] (some "s1")

/-- An update fixture setting the content field. -/
def updFix : MsgUpd :=
  MsgUpd.mk none none (some "updated") none none none

/-- A chunk fixture for the retrieval witness. -/
def chunkFix : ChunkEmbedding :=
  ChunkEmbedding.mk "c1" "s" "a.py" 0 1 "" [1, 0] 0

/-! ### Order instances for the ranking relation -/

instance searchRelTotal (q : List ℝ) : IsTotal ChunkEmbedding (searchRel q) := by
  constructor
  intro a b
  rcases lt_trichotomy (cosineSim q a.vector) (cosineSim q b.vector) with h | h | h
  · exact Or.inr (Or.inl h)
  · rcases Nat.le_total a.created_at b.created_at with hc | hc
    · exact Or.inl (Or.inr ⟨h, hc⟩)
    · exact Or.inr (Or.inr ⟨h.symm, hc⟩)
  · exact Or.inl (Or.inl h)

instance searchRelTrans (q : List ℝ) : IsTrans ChunkEmbedding (searchRel q) := by
  constructor
  intro a b c hab hbc
  rcases hab with h1 | h1 <;> rcases hbc with h2 | h2
  · exact Or.inl (h2.trans h1)
  · exact Or.inl (h2.1 ▸ h1)
  · exact Or.inl (by rw [h1.1]; exact h2)
  · exact Or.inr ⟨h1.1.trans h2.1, h1.2.trans h2.2⟩

/-! ### Claim C1 -/

/-- Claim C1: for every query vector, threshold t in the unit interval and
limit k between 1 and 50, vector search returns only rows whose cosine
similarity to the query is at least t, returns at most k rows, returns
them sorted non-increasing by similarity with ties broken by ascending
created_at, and restricted to the given session when one is supplied.
Modelled from the spec, as the tool implementation is outside the source
tree. -/
theorem vector_search_code_ok (q : List ℝ) (sid? : Option String) (t : ℝ) (k : Nat)
    (db : List ChunkEmbedding) (_ht0 : 0 ≤ t) (_ht1 : t ≤ 1) (_hk1 : 1 ≤ k) (_hk50 : k ≤ 50) :
    (∀ c ∈ vector_search_code q sid? t k db, t ≤ cosineSim q c.vector) ∧
    (vector_search_code q sid? t k db).length ≤ k ∧
    List.Sorted (searchRel q) (vector_search_code q sid? t k db) ∧
    (∀ sid, sid? = some sid → ∀ c ∈ vector_search_code q sid? t k db, c.session_id = sid) := by
  have hdef : vector_search_code q sid? t k db =
      (List.insertionSort (searchRel q)
        ((poolOf sid? db).filter (fun c => decide (t ≤ cosineSim q c.vector)))).take k := rfl
  have hkept : ∀ c ∈ vector_search_code q sid? t k db,
      c ∈ (poolOf sid? db).filter (fun c => decide (t ≤ cosineSim q c.vector)) := by
    intro c hc
    rw [hdef] at hc
    exact (List.perm_insertionSort (searchRel q) _).mem_iff.mp ((List.take_sublist k _).subset hc)
  refine ⟨?_, ?_, ?_, ?_⟩
  · intro c hc
    exact of_decide_eq_true (List.mem_filter.mp (hkept c hc)).2
  · rw [hdef]
    exact List.length_take_le k _
  · rw [hdef]
    exact List.Pairwise.sublist (List.take_sublist k _)
      (List.sorted_insertionSort (searchRel q) _)
  · intro sid hsid c hc
    have hpool := (List.mem_filter.mp (hkept c hc)).1
    rw [hsid] at hpool
    have hps : c ∈ db ∧ c.session_id = sid := by simpa [poolOf] using hpool
    exact hps.2

/-- Witness for claim C1 at a concrete query, threshold, limit and
database. -/
theorem vector_search_code_ok_witness :
    (0 : ℝ) ≤ 7 / 10 ∧ (7 : ℝ) / 10 ≤ 1 ∧ (1 : Nat) ≤ 10 ∧ (10 : Nat) ≤ 50 ∧
    ((∀ c ∈ vector_search_code [1, 0] none (7 / 10) 10 [chunkFix],
        (7 : ℝ) / 10 ≤ cosineSim [1, 0] c.vector) ∧
      (vector_search_code [1, 0] none (7 / 10) 10 [chunkFix]).length ≤ 10 ∧
      List.Sorted (searchRel [1, 0]) (vector_search_code [1, 0] none (7 / 10) 10 [chunkFix]) ∧
      (∀ sid, (none : Option String) = some sid →
        ∀ c ∈ vector_search_code [1, 0] none (7 / 10) 10 [chunkFix], c.session_id = sid)) :=
  ⟨by norm_num, by norm_num, by norm_num, by norm_num,
    vector_search_code_ok [1, 0] none (7 / 10) 10 [chunkFix]
      (by norm_num) (by norm_num) (by norm_num) (by norm_num)⟩

/-! ### Claim C2 -/

/-- Claim C2: feeding the frames with content Processing repo... (not task
complete) and def foo(): pass (task complete) to the assembler yields a
final message whose content is exactly def foo(): pass (the non-processing
content replaced rather than appended), whose status is complete, and
whose processing_messages list is exactly the one processing fragment. -/
theorem stream_two_frame_exchange :
    (runStream 0 [frProcessing, frDone]).content = "def foo(): pass" ∧
    (runStream 0 [frProcessing, frDone]).status = MStatus.complete ∧
    msgProcessing (runStream 0 [frProcessing, frDone]) = some ["Processing repo..."] :=
  ⟨rfl, rfl, rfl⟩

/-! ### Claim C3 -/

/-- Counterexample to claim C3 as stated: the source guards error
collection with a truthiness test on the error value, so a frame whose
error field is present but falsy (the empty string) has nothing appended
to collectedErrors. -/
theorem stream_error_falsy_skipped_cex :
    frErrFalsy.error = some (Json.str "") ∧
    jsTruthy (Json.str "") = false ∧
    initState.collectedErrors = [] ∧
    (stepFrame 0 initState frErrFalsy).collectedErrors = [] :=
  ⟨rfl, rfl, rfl, rfl⟩

/-- Claim C3 (amended): a frame whose error field is present and truthy
has its collected error message appended to collectedErrors, a present
but falsy error is skipped with collectedErrors unchanged, and the step
function keeps processing either way (it is total and the fold
continues); an error frame carrying nothing else neither terminates the
stream nor moves the message into error status: the published status
stays streaming and no crash is recorded. -/
theorem stream_error_nonfatal (now : Nat) (s : StreamState) (f : Frame) (e : Json)
    (hc : s.crashed = false) (he : f.error = some e) :
    (jsTruthy e = true →
      (stepFrame now s f).collectedErrors = s.collectedErrors ++ [errMsgOf e]) ∧
    (jsTruthy e = false → (stepFrame now s f).collectedErrors = s.collectedErrors) ∧
    (f.content = none → f.type = none → f.is_task_complete = false →
      (stepFrame now s f).message.status = MStatus.streaming ∧
      (stepFrame now s f).crashed = false) := by
  refine ⟨?_, ?_, ?_⟩
  · intro ht
    simp only [stepFrame, hc, he]
    repeat' split
    all_goals simp_all [publishCommon, contentTruthy]
  · intro hf
    simp only [stepFrame, hc, he]
    repeat' split
    all_goals simp_all [publishCommon, contentTruthy]
  · intro hcont hty hitc
    simp [stepFrame, hc, he, hcont, hty, hitc, publishCommon, contentTruthy]

/-- Witness for claim C3 at concrete error-only frames, one truthy and
one falsy. -/
theorem stream_error_nonfatal_witness :
    (stepFrame 0 initState frErrOnly).collectedErrors = ["\"boom\""] ∧
    (stepFrame 0 initState frErrFalsy).collectedErrors = [] ∧
    (stepFrame 0 initState frErrOnly).message.status = MStatus.streaming ∧
    (stepFrame 0 initState frErrOnly).crashed = false := by
  have h := stream_error_nonfatal 0 initState frErrOnly (Json.str "boom") rfl rfl
  have h2 := stream_error_nonfatal 0 initState frErrFalsy (Json.str "") rfl rfl
  refine ⟨?_, ?_, (h.2.2 rfl rfl rfl).1, (h.2.2 rfl rfl rfl).2⟩
  · rw [h.1 (by decide)]
    rfl
  · rw [h2.2.1 (by decide)]
    rfl

/-! ### Claim C4 -/

/-- Counterexample to claim C4 as stated: a whole-content JSON object that
has status input_required and has a question field (the empty string) is
classified as an artifact, not as input_required, because the source tests
the truthiness of parsed.question rather than its presence. -/
theorem parseAgentContent_empty_question_cex :
    jsonParse irEmptyQS = some irEmptyQJ ∧
    statusIs irEmptyQJ "input_required" = true ∧
    hasField irEmptyQJ "question" = true ∧
    parseAgentContent irEmptyQS = Parsed.artifact irEmptyQJ :=
  ⟨rfl, rfl, rfl, rfl⟩

/-- Claim C4 (amended): the classifier is a total function returning
exactly one of three results: input_required with the parsed object when
the whole string parses to a truthy object with status input_required and
a truthy question field; artifact with the parsed object when it parses to
any other truthy object; message with the raw text when parsing fails and
likewise when it parses to a non-object (or null) value, parse failure
never being an error. -/
theorem parseAgentContent_cases (content : String) :
    (∀ j, jsonParse content = some j → jsObjTruthy j = true →
      (statusIs j "input_required" && truthyField j "question") = true →
      parseAgentContent content = Parsed.inputRequired j) ∧
    (∀ j, jsonParse content = some j → jsObjTruthy j = true →
      (statusIs j "input_required" && truthyField j "question") = false →
      parseAgentContent content = Parsed.artifact j) ∧
    (jsonParse content = none → parseAgentContent content = Parsed.message content) ∧
    (∀ j, jsonParse content = some j → jsObjTruthy j = false →
      parseAgentContent content = Parsed.message content) := by
  refine ⟨?_, ?_, ?_, ?_⟩
  · intro j hj hobj hq
    simp [parseAgentContent, hj, hobj, hq]
  · intro j hj hobj hq
    simp [parseAgentContent, hj, hobj, hq]
  · intro hj
    simp [parseAgentContent, hj]
  · intro j hj hobj
    simp [parseAgentContent, hj, hobj]

/-- Witness for claim C4 exercising all three classifications at concrete
inputs. -/
theorem parseAgentContent_cases_witness :
    parseAgentContent irS = Parsed.inputRequired irJ ∧
    parseAgentContent irEmptyQS = Parsed.artifact irEmptyQJ ∧
    parseAgentContent "plain text" = Parsed.message "plain text" :=
  ⟨(parseAgentContent_cases irS).1 irJ rfl rfl rfl,
    (parseAgentContent_cases irEmptyQS).2.1 irEmptyQJ rfl rfl rfl,
    (parseAgentContent_cases "plain text").2.2.1 rfl⟩

/-! ### Claim C5 -/

/-- Claim C5 fails on the code: for the fenced block whose inner text
carries a json language tag around an input_required object, the inner
slice does not parse (the tag precedes the JSON), so the block is emitted
as a code artifact even though it contains input_required JSON the
extractor's own comment promises to skip; the evaluation below exhibits
the emitted artifact.  The inline scan of the same content does skip the
fragment, so the code artifact is the only output. -/
theorem extractArtifacts_fenced_input_required_bug :
    jsonParse irS = some irJ ∧
    statusIs irJ "input_required" = true ∧
    truthyField irJ "question" = true ∧
    jsIncludes fencedIR irS = true ∧
    extractArtifacts fencedIR none 0 =
      [Artifact.mk "artifact_code_0" "code" (ArtContent.text fencedIR)] :=
  ⟨rfl, rfl, rfl, by decide, rfl⟩

/-! ### Claim C6 -/

/-- Counterexample to claim C6 as stated: the extractor embeds the clock
reading Date.now() in artifact ids, so two runs on the same content and
the same raw structured object that observe different clock values differ
in the id field. -/
theorem extractArtifacts_clock_cex :
    (extractArtifacts "" (some mdRaw) 0).map Artifact.id = ["artifact_json_0"] ∧
    (extractArtifacts "" (some mdRaw) 1).map Artifact.id = ["artifact_json_1"] ∧
    extractArtifacts "" (some mdRaw) 0 ≠ extractArtifacts "" (some mdRaw) 1 := by
  refine ⟨rfl, rfl, ?_⟩
  intro h
  have h2 := congrArg (List.map Artifact.id) h
  rw [show (extractArtifacts "" (some mdRaw) 0).map Artifact.id = ["artifact_json_0"] from rfl,
      show (extractArtifacts "" (some mdRaw) 1).map Artifact.id = ["artifact_json_1"] from rfl]
    at h2
  exact absurd h2 (by decide)

/-- Claim C6 (amended): artifact extraction is deterministic and
idempotent up to the clock-derived id fields: two runs on the same content
and the same optional raw structured object agree on every artifact's type
and content, in order, and agree identically in every field whenever they
observe the same clock value. -/
theorem extractArtifacts_deterministic_upto_ids (content : String) (metadata : Option MetaD)
    (n₁ n₂ : Nat) :
    (extractArtifacts content metadata n₁).map stripId =
      (extractArtifacts content metadata n₂).map stripId := by
  have hfile : (fileArts content n₁).map stripId = (fileArts content n₂).map stripId := by
    by_cases h : 3 < (filePathMatches content).length <;> simp [fileArts, h, stripId]
  have hrest : (restArtifacts content n₁).map stripId = (restArtifacts content n₂).map stripId := by
    simp [restArtifacts, hfile]
  unfold extractArtifacts
  cases hr : rawDataOf metadata with
  | some rd =>
    cases hg : getField rd "repository_analysis" with
    | some ra => by_cases hb : jsObjTruthy ra <;> simp [hr, hg, hb, stripId]
    | none => simp [hr, hg, stripId]
  | none =>
    cases hp : jsonParse (jsTrim content) with
    | some p =>
      by_cases hb : jsObjTruthy p
      · by_cases hs : statusIs p "input_required" <;> simp [hr, hp, hb, hs, stripId]
      · simp [hr, hp, hb, hrest]
    | none => simp [hr, hp, hrest]

/-! ### Claim C7 -/

/-- Counterexample to claim C7 as stated: the assembler loop keeps no
terminal flag, so a plain content frame arriving after a final_result
frame is applied, overwriting fullContent (and the final message) instead
of being dropped. -/
theorem stream_post_terminal_applied_cex :
    (runState 0 [frFinalA]).fullContent = "A" ∧
    (runState 0 [frFinalA, frLateB]).fullContent = "B" ∧
    (runStream 0 [frFinalA, frLateB]).content = "B" :=
  ⟨rfl, rfl, rfl⟩

/-- Claim C7 (amended): a frame arriving after a realized terminal
condition is processed like any other frame: from every un-crashed state,
a terminal state included, a non-empty, non-processing string content
frame without terminal markers overwrites fullContent with its content and
publishes the message back in streaming status. -/
theorem stream_post_terminal_applied (now : Nat) (s : StreamState) (f : Frame) (c : String)
    (hc : s.crashed = false) (hcont : f.content = some (ContentV.str c)) (hne : c ≠ "")
    (hitc : f.is_task_complete = false) (hty : f.type = none)
    (hproc : isProcessingMessage c = false) :
    (stepFrame now s f).fullContent = c ∧
    (stepFrame now s f).message.status = MStatus.streaming := by
  simp [stepFrame, hc, hcont, hitc, hty, hproc, publishCommon, contentTruthy, hne]

/-- Witness for claim C7: the late frame applied to the concrete
post-terminal state. -/
theorem stream_post_terminal_applied_witness :
    (stepFrame 0 (runState 0 [frFinalA]) frLateB).fullContent = "B" ∧
    (stepFrame 0 (runState 0 [frFinalA]) frLateB).message.status = MStatus.streaming :=
  stream_post_terminal_applied 0 (runState 0 [frFinalA]) frLateB "B" rfl rfl
    (by decide) rfl rfl (by decide)

/-! ### Claim C8 -/

/-- A list is an infix of itself. -/
theorem infixOfL_self (l : List Char) : infixOfL l l = true := by
  cases l with
  | nil => rfl
  | cons c cs => simp [infixOfL, List.isPrefixOf_iff_prefix]

/-- A list is an infix of anything it ends. -/
theorem infixOfL_append (pre l : List Char) : infixOfL l (pre ++ l) = true := by
  induction pre with
  | nil => simpa using infixOfL_self l
  | cons c pre ih =>
    cases l with
    | nil => simp [infixOfL]
    | cons d ds => simp [infixOfL, ih]

/-- Every string includes itself. -/
theorem jsIncludes_self (s : String) : jsIncludes s s = true :=
  infixOfL_self s.data

/-- Every string includes its own suffix. -/
theorem jsIncludes_append_right (a b : String) : jsIncludes (a ++ b) b = true := by
  have : (a ++ b).data = a.data ++ b.data := rfl
  simp only [jsIncludes, this]
  exact infixOfL_append a.data b.data

/-- The question value returned by the detection scan is truthy. -/
theorem firstIRMatch_question_truthy (content m : String) (qv : Json)
    (h : firstIRMatch content = some (m, qv)) : jsTruthy qv = true := by
  obtain ⟨x, _, hfx⟩ := List.exists_of_findSome?_eq_some h
  cases hj : jsonParse x with
  | none => rw [hj] at hfx; exact absurd hfx (by simp)
  | some p =>
    rw [hj] at hfx
    dsimp only at hfx
    by_cases hcnd : (jsObjTruthy p && statusIs p "input_required" && truthyField p "question") = true
    · rw [if_pos hcnd] at hfx
      cases hgq : getField p "question" with
      | none => rw [hgq] at hfx; exact absurd hfx (by simp)
      | some qv2 =>
        rw [hgq] at hfx
        dsimp only at hfx
        have hqv : qv2 = qv := by
          have := Option.some.inj hfx
          exact congrArg Prod.snd this
        have ht : truthyField p "question" = true := by
          simp [Bool.and_eq_true] at hcnd
          exact hcnd.2
        have : jsTruthy qv2 = true := by simpa [truthyField, hgq] using ht
        rw [hqv] at this
        exact this
    · rw [if_neg hcnd] at hfx
      exact absurd hfx (by simp)

/-- Claim C8 (amended): whenever the brace scan detects an embedded
input_required fragment (in particular any flat fragment without nested
braces, surrounded by arbitrary free-form text), the renderer takes the
question branch for the completed message regardless of its metadata, and
the rendered text contains the question text rather than only the raw
JSON. -/
theorem formatMessageContent_embedded_ir (content : String) (meta : Option MsgMeta)
    (m : String) (qv : Json) (h : firstIRMatch content = some (m, qv)) :
    ∃ t, (formatMessageContent (Msg.mk content MStatus.complete meta)).body = Body.irText t ∧
      jsIncludes t (jsToStr qv) = true := by
  have htr := firstIRMatch_question_truthy content m qv h
  by_cases hinc : jsIncludes (cleanupIRText (removeIRMatches content)) (jsToStr qv) = true
  · refine ⟨cleanupIRText (removeIRMatches content), ?_, hinc⟩
    simp [formatMessageContent, h, hinc]
  · by_cases hempty : (cleanupIRText (removeIRMatches content) == "") = true
    · refine ⟨jsToStr qv, ?_, jsIncludes_self _⟩
      simp [formatMessageContent, h, hinc, hempty, htr]
    · refine ⟨cleanupIRText (removeIRMatches content) ++ "\n\n" ++ jsToStr qv, ?_,
        jsIncludes_append_right _ _⟩
      simp [formatMessageContent, h, hinc, hempty, htr]

/-- Witness for claim C8 at the concrete flat embedded fragment. -/
theorem formatMessageContent_embedded_ir_witness :
    firstIRMatch flatEmb = some (irS, Json.str "Which branch?") ∧
    ∃ t, (formatMessageContent (Msg.mk flatEmb MStatus.complete none)).body = Body.irText t ∧
      jsIncludes t (jsToStr (Json.str "Which branch?")) = true :=
  ⟨rfl, formatMessageContent_embedded_ir flatEmb none irS (Json.str "Which branch?") rfl⟩

/-- Counterexample to claim C8 as stated: an input_required fragment with
a nested object, embedded in free-form prose, defeats the non-greedy brace
scan, the whole-content parse and the artifact scan alike, so the pipeline
renders the raw JSON through the plain fallback instead of surfacing the
question. -/
theorem displayPipeline_nested_ir_cex :
    jsonParse nestedFrag =
      some (Json.obj [("status", Json.str "input_required"), ("question", Json.str "Q"),
        ("x", Json.obj [])]) ∧
    jsIncludes nestedEmb nestedFrag = true ∧
    nestedEmb ≠ nestedFrag ∧
    firstIRMatch nestedEmb = none ∧
    (displayPipeline nestedEmb 0).body = Body.plainParts [nestedEmb] :=
  ⟨rfl, by decide, by decide, rfl, rfl⟩

/-! ### Claim C9 -/

/-- findIdx? on a decomposed list finds the pivot when nothing before it
matches. -/
theorem findIdx?_append_cons {α : Type} (p : α → Bool) (pre : List α) (x : α) (post : List α)
    (hpre : ∀ y ∈ pre, p y = false) (hx : p x = true) :
    (pre ++ x :: post).findIdx? p = some pre.length := by
  induction pre with
  | nil => simp [List.findIdx?_cons, hx]
  | cons y pre ih =>
    have hy : p y = false := hpre y (by simp)
    have ih2 := ih (fun z hz => hpre z (by simp [hz]))
    simp [List.findIdx?_cons, hy, List.findIdx?_start_succ, ih2]

/-- Element lookup at the pivot of a decomposed list. -/
theorem getElem?_append_cons {α : Type} (pre : List α) (x : α) (post : List α) :
    (pre ++ x :: post)[pre.length]? = some x := by
  induction pre with
  | nil => simp
  | cons y pre ih => simpa using ih

/-- Setting the pivot of a decomposed list replaces exactly it. -/
theorem set_append_cons {α : Type} (pre : List α) (x y : α) (post : List α) :
    (pre ++ x :: post).set pre.length y = pre ++ y :: post := by
  induction pre with
  | nil => rfl
  | cons z pre ih => simp [ih]

/-- A successful findIdx? exposes a matching element at the found index. -/
theorem findIdx?_some_getElem {α : Type} (p : α → Bool) (l : List α) (i : Nat)
    (h : l.findIdx? p = some i) : ∃ x, l[i]? = some x ∧ p x = true := by
  induction l generalizing i with
  | nil => simp at h
  | cons y l ih =>
    rw [List.findIdx?_cons] at h
    by_cases hy : p y = true
    · rw [if_pos hy] at h
      obtain rfl : (0 : Nat) = i := Option.some.inj h
      exact ⟨y, by simp, hy⟩
    · rw [if_neg hy] at h
      rw [List.findIdx?_start_succ] at h
      cases hk : l.findIdx? p 0 with
      | none => rw [hk] at h; simp at h
      | some k =>
        rw [hk] at h
        have hik : k + 1 = i := by simpa using h
        obtain ⟨x, hx, hpx⟩ := ih k hk
        refine ⟨x, ?_, hpx⟩
        rw [← hik]
        simpa using hx

/-- Claim C9: updating a message leaves the whole store unchanged when no
session with the id exists or no message with the id exists in it, and
otherwise replaces exactly the located message by its merge with the
updates, every other message and session (and the active id) unchanged. -/
theorem updateMessageInSession_ok (d : SessionsStorageData) (sid mid : String) (u : MsgUpd) :
    ((∀ s ∈ d.sessions, s.id = sid → ∀ m ∈ s.messages, m.id ≠ mid) →
      updateMessageInSession d sid mid u = d) ∧
    (∀ pre sess post mpre msg mpost,
      d.sessions = pre ++ sess :: post →
      (∀ s ∈ pre, s.id ≠ sid) → sess.id = sid →
      sess.messages = mpre ++ msg :: mpost →
      (∀ m ∈ mpre, m.id ≠ mid) → msg.id = mid →
      updateMessageInSession d sid mid u =
        SessionsStorageData.mk
          (pre ++ (PSession.mk sess.id sess.name sess.github_url sess.agent_type sess.created_at
            sess.last_used (mpre ++ applyUpd msg u :: mpost)) :: post)
          d.activeSessionId) := by
  constructor
  · intro habs
    unfold updateMessageInSession
    cases hf : d.sessions.findIdx? (fun s => s.id == sid) with
    | none => rfl
    | some i =>
      obtain ⟨sess, hsess, hp⟩ := findIdx?_some_getElem _ _ _ hf
      dsimp only
      rw [hsess]
      dsimp only
      have hsid : sess.id = sid := beq_iff_eq.mp hp
      have hmem : sess ∈ d.sessions := List.getElem?_mem hsess
      have hnone : sess.messages.findIdx? (fun m => m.id == mid) = none := by
        rw [List.findIdx?_eq_none_iff]
        intro m hm
        simpa using habs sess hmem hsid m hm
      rw [hnone]
  · intro pre sess post mpre msg mpost hsessions hpre hsid hmsgs hmpre hmid
    unfold updateMessageInSession
    have hf : d.sessions.findIdx? (fun s => s.id == sid) = some pre.length := by
      rw [hsessions]
      exact findIdx?_append_cons _ pre sess post (fun y hy => by simpa using hpre y hy)
        (by simpa using hsid)
    have hg : d.sessions[pre.length]? = some sess := by
      rw [hsessions]; exact getElem?_append_cons pre sess post
    rw [hf]
    dsimp only
    rw [hg]
    dsimp only
    have hf2 : sess.messages.findIdx? (fun m => m.id == mid) = some mpre.length := by
      rw [hmsgs]
      exact findIdx?_append_cons _ mpre msg mpost (fun y hy => by simpa using hmpre y hy)
        (by simpa using hmid)
    have hg2 : sess.messages[mpre.length]? = some msg := by
      rw [hmsgs]; exact getElem?_append_cons mpre msg mpost
    rw [hf2]
    dsimp only
    rw [hg2]
    dsimp only
    rw [hmsgs, set_append_cons, hsessions, set_append_cons]

/-- Witness for claim C9: a miss leaves the concrete store untouched, and
a hit replaces exactly the targeted message. -/
theorem updateMessageInSession_ok_witness :
    updateMessageInSession storeFix "s1" "zzz" updFix = storeFix ∧
    updateMessageInSession storeFix "s2" "m2" updFix =
      SessionsStorageData.mk
        ([sessFix "s1"] ++ (PSession.mk (sessFix "s2").id (sessFix "s2").name
          (sessFix "s2").github_url (sessFix "s2").agent_type (sessFix "s2").created_at
          (sessFix "s2").last_used ([msgFix "m1"] ++ applyUpd (msgFix "m2") updFix :: [])) :: [])
        storeFix.activeSessionId :=
  ⟨(updateMessageInSession_ok storeFix "s1" "zzz" updFix).1 (by decide),
    (updateMessageInSession_ok storeFix "s2" "m2" updFix).2 [sessFix "s1"] (sessFix "s2") []
      [msgFix "m1"] (msgFix "m2") [] rfl (by decide) rfl rfl (by decide) rfl⟩

/-! ### Claim C10 -/

/-- Claim C10: deleting a session removes every session with that id while
preserving the relative order of the others (the result is the filtered
original, a sublist), keeps the active id unchanged when it pointed
elsewhere, re-points it at the first remaining session (or clears it) when
it pointed at the deleted session, and never leaves it dangling when it
was not dangling before. -/
theorem deleteSession_ok (d : SessionsStorageData) (sid : String) :
    (deleteSession d sid).sessions = d.sessions.filter (fun s => !(s.id == sid)) ∧
    (∀ s ∈ (deleteSession d sid).sessions, s.id ≠ sid) ∧
    (deleteSession d sid).sessions.Sublist d.sessions ∧
    (d.activeSessionId ≠ some sid → (deleteSession d sid).activeSessionId = d.activeSessionId) ∧
    (d.activeSessionId = some sid →
      (deleteSession d sid).activeSessionId =
        ((d.sessions.filter (fun s => !(s.id == sid))).head?).map PSession.id) ∧
    ((∀ a, d.activeSessionId = some a → ∃ s ∈ d.sessions, s.id = a) →
      ∀ a, (deleteSession d sid).activeSessionId = some a →
        ∃ s ∈ (deleteSession d sid).sessions, s.id = a) := by
  refine ⟨rfl, ?_, ?_, ?_, ?_, ?_⟩
  · intro s hs
    have hmem : s ∈ d.sessions.filter (fun s => !(s.id == sid)) := hs
    have := (List.mem_filter.mp hmem).2
    simpa using this
  · exact List.filter_sublist d.sessions
  · intro h
    have hb : (d.activeSessionId == some sid) = false := by simpa using h
    simp [deleteSession, hb]
  · intro h
    cases hsf : d.sessions.filter (fun s => !(s.id == sid)) with
    | nil => simp [deleteSession, h, hsf]
    | cons s rest => simp [deleteSession, h, hsf]
  · intro hinv a ha
    by_cases hact : d.activeSessionId = some sid
    · simp only [deleteSession, hact] at ha ⊢
      cases hsf : d.sessions.filter (fun s => !(s.id == sid)) with
      | nil => rw [hsf] at ha; simp at ha
      | cons s rest =>
        rw [hsf] at ha
        simp at ha
        exact ⟨s, List.mem_cons_self s rest, ha⟩
    · have hb : (d.activeSessionId == some sid) = false := by simpa using hact
      have hsame : (deleteSession d sid).activeSessionId = d.activeSessionId := by
        simp [deleteSession, hb]
      rw [hsame] at ha
      obtain ⟨s, hs, hsid2⟩ := hinv a ha
      have hane : a ≠ sid := by
        intro hcontra
        rw [hcontra] at ha
        exact hact ha
      refine ⟨s, ?_, hsid2⟩
      have : s ∈ d.sessions.filter (fun s => !(s.id == sid)) :=
        List.mem_filter.mpr ⟨hs, by simp [hsid2, hane]⟩
      exact this

/-- Witness for claim C10 at a concrete store, exercising both the
re-pointing and the unchanged-active cases. -/
theorem deleteSession_ok_witness :
    (deleteSession storeFix "s1").activeSessionId =
      ((storeFix.sessions.filter (fun s => !(s.id == "s1"))).head?).map PSession.id ∧
    (deleteSession storeFix "s2").activeSessionId = storeFix.activeSessionId ∧
    (∀ s ∈ (deleteSession storeFix "s1").sessions, s.id ≠ "s1") :=
  ⟨(deleteSession_ok storeFix "s1").2.2.2.2.1 rfl,
    (deleteSession_ok storeFix "s2").2.2.2.1 (by decide),
    (deleteSession_ok storeFix "s1").2.1⟩
